import Mathlib

/-!
Shallow embedding of the graph-sql storage adapter (store.go, config.go).

The adapter persists a directed graph into two SQL tables.  We model the
database state explicitly: the vertices table and the edges table are lists
of rows, an INSERT appends a row, a DELETE filters rows out, an UPDATE maps
over the rows, a point SELECT (QueryRow) returns the first matching row and
reports sql.ErrNoRows when none matches.

The JSON codec (encoding/json) is external to the repository, so it is a
parameter of the model: an encoder for the generic vertex value type T
(json.Marshal, which can fail on unencodable values, hence Option) together
with a decoder, and an encoder/decoder pair for attribute maps
(map[string]string, whose json.Marshal is total).  The opaque edge payload
Data is stored by the driver without transformation, so it is kept as a raw
value of a type parameter D.
-/

namespace GraphSQL

/-- Serialized payloads (the []byte results of json.Marshal) as lists of
naturals. -/
abbrev Bytes := List Nat

/-- Attribute mappings, Go map[string]string, modelled as association
lists. -/
abbrev Attrs := List (String × String)

/-- graph.VertexProperties: the attributes map and the integer weight. -/
structure VertexProperties where
  Attributes : Attrs
  Weight : Int
deriving DecidableEq, Repr

/-- graph.EdgeProperties over a payload type D: attributes, weight and the
opaque Data payload. -/
structure EdgeProperties (D : Type) where
  Attributes : Attrs
  Weight : Int
  Data : D
deriving DecidableEq, Repr

/-- graph.Edge: source and target hashes plus the edge properties. -/
structure EdgeT (K D : Type) where
  Source : K
  Target : K
  Properties : EdgeProperties D
deriving DecidableEq, Repr

/-- A row of the vertices table: hash, serialized value, weight, serialized
attributes (the auto-increment id column is surrogate storage only and is
never read back, so it is not modelled). -/
structure VertexRow (K : Type) where
  hash : K
  value : Bytes
  weight : Int
  attributes : Bytes
deriving DecidableEq, Repr

/-- A row of the edges table: source hash, target hash, weight, serialized
attributes and the raw data blob. -/
structure EdgeRow (K D : Type) where
  sourceHash : K
  targetHash : K
  weight : Int
  attributes : Bytes
  data : D
deriving DecidableEq, Repr

/-- The database state seen by one store: the two tables. -/
structure DB (K D : Type) where
  vertices : List (VertexRow K)
  edges : List (EdgeRow K D)
deriving DecidableEq, Repr

/-- The empty database (both tables freshly created). -/
def emptyDB {K D : Type} : DB K D := ⟨[], []⟩

/-- Errors from the database driver surfaced through Scan/Exec.  noRows is
sql.ErrNoRows. -/
inductive DbErr where
  | noRows
  | other (msg : String)
deriving DecidableEq, Repr

/-- The errors the adapter methods return, one constructor per distinct
error shape in store.go.  edgeNotFound is the sentinel graph.ErrEdgeNotFound. -/
inductive StoreError where
  | marshalFailed
  | queryVertexFailed (wrapped : DbErr)
  | unmarshalValueFailed
  | unmarshalAttributesFailed
  | scanRowFailed (wrapped : DbErr)
  | edgeNotFound
deriving DecidableEq, Repr

/-- Config from config.go: table names and the column types substituted
into the DDL templates. -/
structure Config where
  VerticesTable : String
  EdgesTable : String
  VertexHashType : String
  VertexValueType : String
deriving DecidableEq, Repr

/-- DefaultConfig from config.go. -/
def DefaultConfig : Config :=
  ⟨"vertices", "edges", "TEXT", "JSON"⟩

/-- createVerticesTableSQL: the CREATE TABLE statement for the vertices
table, with the configured table name and column types substituted in. -/
def createVerticesTableSQL (c : Config) : String :=
  "\nCREATE TABLE " ++ c.VerticesTable ++ " (\n    id BIGINT UNSIGNED AUTO_INCREMENT PRIMARY KEY,\n    hash " ++ c.VertexHashType ++ ",\n    value " ++ c.VertexValueType ++ ",\n\tweight INT,\n\tattributes JSON\n);"

/-- createEdgesTableSQL: the CREATE TABLE statement for the edges table. -/
def createEdgesTableSQL (c : Config) : String :=
  "\nCREATE TABLE " ++ c.EdgesTable ++ " (\n\tid BIGINT UNSIGNED AUTO_INCREMENT PRIMARY KEY,\n\tsource_hash " ++ c.VertexHashType ++ ",\n\ttarget_hash " ++ c.VertexHashType ++ ",\n\tweight INT,\n\tattributes JSON,\n\tdata BLOB\n);"

/-- dropVerticesTableSQL. -/
def dropVerticesTableSQL (c : Config) : String :=
  "DROP TABLE " ++ c.VerticesTable ++ ";"

/-- dropEdgesTableSQL. -/
def dropEdgesTableSQL (c : Config) : String :=
  "DROP TABLE " ++ c.EdgesTable ++ ";"

/-- An error produced by SetupTables/DestroyTables: the fmt.Errorf call
is kept structurally as the format verb, the table name substituted for %s,
and the wrapped (%w) driver error.  Both methods use the literal verb
"failed to set up" (DestroyTables reuses it verbatim in store.go). -/
structure TableError where
  verb : String
  table : String
  wrapped : DbErr
deriving DecidableEq, Repr

/-- SetupTables: executes the vertices CREATE TABLE first, then the edges
CREATE TABLE.  DDL execution is external, so the database is an oracle
execRes mapping a statement to its failure (none = success).  The result
records the trace of statements actually issued, in order, together with
the returned error; a failure of the second statement leaves the first
table in place (no rollback statement is issued). -/
def SetupTables (c : Config) (execRes : String → Option DbErr) :
    List String × Option TableError :=
  let sql1 := createVerticesTableSQL c
  match execRes sql1 with
  | some e => ([sql1], some ⟨"failed to set up", c.VerticesTable, e⟩)
  | none =>
    let sql2 := createEdgesTableSQL c
    match execRes sql2 with
    | some e => ([sql1, sql2], some ⟨"failed to set up", c.EdgesTable, e⟩)
    | none => ([sql1, sql2], none)

/-- DestroyTables: drops the edges table first, then the vertices table.
The error message verb is the same "failed to set up" string that appears
in the source for both failure branches. -/
def DestroyTables (c : Config) (execRes : String → Option DbErr) :
    List String × Option TableError :=
  let sql1 := dropEdgesTableSQL c
  match execRes sql1 with
  | some e => ([sql1], some ⟨"failed to set up", c.EdgesTable, e⟩)
  | none =>
    let sql2 := dropVerticesTableSQL c
    match execRes sql2 with
    | some e => ([sql1, sql2], some ⟨"failed to set up", c.VerticesTable, e⟩)
    | none => ([sql1, sql2], none)

/-- AddVertex: json.Marshal the value (may fail), json.Marshal the
attributes map (total for map[string]string, hence encAttrs : Attrs → Bytes),
then INSERT one row.  Returns the updated database and the error. -/
def AddVertex {K T D : Type} (encT : T → Option Bytes) (encAttrs : Attrs → Bytes)
    (db : DB K D) (hash : K) (value : T) (properties : VertexProperties) :
    DB K D × Option StoreError :=
  match encT value with
  | none => (db, some .marshalFailed)
  | some valueBytes =>
    (⟨db.vertices ++
        [⟨hash, valueBytes, properties.Weight, encAttrs properties.Attributes⟩],
      db.edges⟩, none)

/-- RemoveVertex: DELETE FROM vertices WHERE hash = ?.  Exec reports no
error when zero rows match. -/
def RemoveVertex {K D : Type} [DecidableEq K] (db : DB K D) (hash : K) :
    DB K D × Option StoreError :=
  (⟨db.vertices.filter (fun r => !decide (r.hash = hash)), db.edges⟩, none)

/-- Vertex: SELECT value, weight, attributes WHERE hash = ?, QueryRow
(first matching row, sql.ErrNoRows when none — wrapped by the source as
"failed to query vertex"), then json.Unmarshal of the value and of the
attributes.  The Go method returns partially zero values alongside the
error; only the error is observable there, so the model returns Except. -/
def Vertex {K T D : Type} [DecidableEq K] (decT : Bytes → Option T)
    (decAttrs : Bytes → Option Attrs) (db : DB K D) (hash : K) :
    Except StoreError (T × VertexProperties) :=
  match db.vertices.find? (fun r => decide (r.hash = hash)) with
  | none => .error (.queryVertexFailed .noRows)
  | some row =>
    match decT row.value with
    | none => .error .unmarshalValueFailed
    | some value =>
      match decAttrs row.attributes with
      | none => .error .unmarshalAttributesFailed
      | some attrs => .ok (value, ⟨attrs, row.weight⟩)

/-- ListVertices: SELECT hash FROM vertices, all rows in natural order. -/
def ListVertices {K D : Type} (db : DB K D) :
    Except StoreError (List K) :=
  .ok (db.vertices.map (·.hash))

/-- VertexCount: SELECT count(hash).  Every row inserted by AddVertex
carries a hash value, so count(hash) is the number of rows. -/
def VertexCount {K D : Type} (db : DB K D) : Nat × Option StoreError :=
  (db.vertices.length, none)

/-- AddEdge: json.Marshal the attributes (total for map[string]string),
then INSERT one row carrying the raw data payload untransformed. -/
def AddEdge {K D : Type} (encAttrs : Attrs → Bytes) (db : DB K D)
    (sourceHash targetHash : K) (edge : EdgeT K D) :
    DB K D × Option StoreError :=
  (⟨db.vertices,
    db.edges ++
      [⟨sourceHash, targetHash, edge.Properties.Weight,
        encAttrs edge.Properties.Attributes, edge.Properties.Data⟩]⟩, none)

/-- Test whether an edge row matches the exact (source, target) pair of a
WHERE clause. -/
def edgeMatches {K D : Type} [DecidableEq K] (sourceHash targetHash : K)
    (r : EdgeRow K D) : Bool :=
  decide (r.sourceHash = sourceHash) && decide (r.targetHash = targetHash)

/-- RemoveEdge: DELETE FROM edges WHERE source_hash = ? AND target_hash = ?.
No error when zero rows match. -/
def RemoveEdge {K D : Type} [DecidableEq K] (db : DB K D)
    (sourceHash targetHash : K) : DB K D × Option StoreError :=
  (⟨db.vertices, db.edges.filter (fun r => !edgeMatches sourceHash targetHash r)⟩,
    none)

/-- Edge: the result edge is initialised with the requested Source and
Target, the first row matching the pair is scanned into weight/attributes/
data, sql.ErrNoRows is translated into the graph.ErrEdgeNotFound sentinel,
and the attributes are json.Unmarshal-ed.  The (edge, error) pair is
returned on every path, as in the source. -/
def Edge {K D : Type} [DecidableEq K] [Inhabited D]
    (decAttrs : Bytes → Option Attrs) (db : DB K D)
    (sourceHash targetHash : K) : EdgeT K D × Option StoreError :=
  match db.edges.find? (edgeMatches sourceHash targetHash) with
  | none => (⟨sourceHash, targetHash, ⟨[], 0, default⟩⟩, some .edgeNotFound)
  | some row =>
    match decAttrs row.attributes with
    | none =>
      (⟨sourceHash, targetHash, ⟨[], row.weight, row.data⟩⟩,
        some .unmarshalAttributesFailed)
    | some attrs =>
      (⟨sourceHash, targetHash, ⟨attrs, row.weight, row.data⟩⟩, none)

/-- Loop body of ListEdges: scan each row in order, json.Unmarshal its
attributes, abort with the unmarshal error at the first failure (the Go
loop returns nil, err there, so no partial slice escapes). -/
def listEdgesRows {K D : Type} (decAttrs : Bytes → Option Attrs) :
    List (EdgeRow K D) → Except StoreError (List (EdgeT K D))
  | [] => .ok []
  | row :: rest =>
    match decAttrs row.attributes with
    | none => .error .unmarshalAttributesFailed
    | some attrs =>
      match listEdgesRows decAttrs rest with
      | .error e => .error e
      | .ok edges =>
        .ok (⟨row.sourceHash, row.targetHash, ⟨attrs, row.weight, row.data⟩⟩
          :: edges)

/-- ListEdges: SELECT all edge rows and decode them per row. -/
def ListEdges {K D : Type} (decAttrs : Bytes → Option Attrs) (db : DB K D) :
    Except StoreError (List (EdgeT K D)) :=
  listEdgesRows decAttrs db.edges

/-- EdgeCount: SELECT count(source_hash).  Every row inserted by AddEdge
carries a source hash value and UpdateEdge never clears it, so the counted
column is populated on every row and count(source_hash) is the number of
rows (the source deliberately avoids count(id), which undercounts on
sqlite). -/
def EdgeCount {K D : Type} (db : DB K D) : Nat × Option StoreError :=
  (db.edges.length, none)

/-- UpdateEdge: json.Marshal the attributes, then UPDATE edges SET weight,
attributes, data WHERE source_hash = ? AND target_hash = ?.  Every matching
row is overwritten; zero matching rows is not an error. -/
def UpdateEdge {K D : Type} [DecidableEq K] (encAttrs : Attrs → Bytes)
    (db : DB K D) (sourceHash targetHash : K) (edge : EdgeT K D) :
    DB K D × Option StoreError :=
  let attributesBytes := encAttrs edge.Properties.Attributes
  (⟨db.vertices,
    db.edges.map (fun r =>
      if edgeMatches sourceHash targetHash r then
        ⟨r.sourceHash, r.targetHash, edge.Properties.Weight, attributesBytes,
          edge.Properties.Data⟩
      else r)⟩, none)

/-! Concrete stand-ins for the external JSON codec, used to instantiate the
generic theorems at executable inputs.  encNat/decNat is a codec for Nat
vertex values; encAttrsW/decAttrsW is a codec for the attribute mappings
appearing in the concrete scenarios. -/

/-- Concrete encoder for Nat values (a stand-in for json.Marshal). -/
def encNat (n : Nat) : Option Bytes := some [n]

/-- Concrete decoder for Nat values, inverse of encNat on its range. -/
def decNat : Bytes → Option Nat
  | [n] => some n
  | _ => none

/-- Concrete encoder for the attribute mappings used in the scenarios. -/
def encAttrsW (a : Attrs) : Bytes :=
  if a = [("a", "x")] then [1] else if a = [("abc", "xyz")] then [2] else [0]

/-- Concrete decoder matching encAttrsW on the scenario mappings. -/
def decAttrsW : Bytes → Option Attrs
  | [0] => some []
  | [1] => some [("a", "x")]
  | [2] => some [("abc", "xyz")]
  | _ => none

/-- A list filter that keeps everything when no element satisfies the
deleted-rows predicate: a DELETE matching zero rows leaves the table
untouched. -/
theorem filter_not_eq_self {α : Type} {p : α → Bool} {l : List α}
    (h : ∀ x ∈ l, p x = false) : l.filter (fun x => !p x) = l :=
  List.filter_eq_self.mpr (fun x hx => by rw [h x hx]; rfl)

/-- C7: RemoveVertex on a key with no matching row, and RemoveEdge on a
pair with no matching row, both return no error and leave the database
unchanged (deleting zero rows is a success). -/
theorem remove_absent_succeeds {K D : Type} [DecidableEq K]
    (db db2 : DB K D) (k s t : K)
    (hv : ∀ r ∈ db.vertices, r.hash ≠ k)
    (he : ∀ r ∈ db2.edges, ¬(r.sourceHash = s ∧ r.targetHash = t)) :
    RemoveVertex db k = (db, none) ∧ RemoveEdge db2 s t = (db2, none) := by
  constructor
  · unfold RemoveVertex
    rw [filter_not_eq_self (fun r hr => by simp [hv r hr])]
  · unfold RemoveEdge
    rw [filter_not_eq_self (fun r hr => by
      have hne := he r hr
      simp only [edgeMatches, Bool.and_eq_false_imp, decide_eq_true_eq,
        decide_eq_false_iff_not]
      intro h1
      exact fun h2 => hne ⟨h1, h2⟩)]

/-- A concrete database with one vertex row and one edge row, used to
exercise the absent-key removal paths. -/
def removeDBW : DB Nat Nat :=
  ⟨[⟨1, [7], 0, [0]⟩], [⟨1, 1, 0, [0], 0⟩]⟩

theorem remove_absent_succeeds_witness :
    (∀ r ∈ removeDBW.vertices, r.hash ≠ 2) ∧
    RemoveVertex removeDBW 2 = (removeDBW, none) ∧
    RemoveEdge removeDBW 1 2 = (removeDBW, none) := by
  have hv : ∀ r ∈ removeDBW.vertices, r.hash ≠ 2 := by
    intro r hr
    simp only [removeDBW, List.mem_singleton] at hr
    subst hr
    decide
  have he : ∀ r ∈ removeDBW.edges, ¬(r.sourceHash = 1 ∧ r.targetHash = 2) := by
    intro r hr
    simp only [removeDBW, List.mem_singleton] at hr
    subst hr
    decide
  exact ⟨hv, (remove_absent_succeeds removeDBW removeDBW 2 1 2 hv he).1,
    (remove_absent_succeeds removeDBW removeDBW 2 1 2 hv he).2⟩

/-- C10: the edge value returned by Edge always carries the requested
source and target hashes, on the success path, on the not-found path and on
the attribute-decode-failure path alike. -/
theorem edge_returns_requested_endpoints {K D : Type} [DecidableEq K]
    [Inhabited D] (decAttrs : Bytes → Option Attrs) (db : DB K D) (s t : K) :
    (Edge decAttrs db s t).1.Source = s ∧ (Edge decAttrs db s t).1.Target = t := by
  cases hf : db.edges.find? (edgeMatches s t) with
  | none => simp [Edge, hf]
  | some row =>
    cases ha : decAttrs row.attributes with
    | none => simp [Edge, hf, ha]
    | some attrs => simp [Edge, hf, ha]

/-- C9: SetupTables issues the vertices CREATE TABLE first and the edges
CREATE TABLE second, never issuing any other statement (in particular no
rollback of the first table when the second fails); each failure is
reported as an error naming the configured table that failed, wrapping the
driver error.  DestroyTables issues the edges DROP first and the vertices
DROP second, its errors naming the table whose drop failed. -/
theorem setup_destroy_table_errors (c : Config)
    (execRes : String → Option DbErr) (e : DbErr) :
    ((SetupTables c execRes).1 = [createVerticesTableSQL c] ∨
      (SetupTables c execRes).1 =
        [createVerticesTableSQL c, createEdgesTableSQL c]) ∧
    (execRes (createVerticesTableSQL c) = some e →
      SetupTables c execRes =
        ([createVerticesTableSQL c],
          some ⟨"failed to set up", c.VerticesTable, e⟩)) ∧
    (execRes (createVerticesTableSQL c) = none →
      execRes (createEdgesTableSQL c) = some e →
      SetupTables c execRes =
        ([createVerticesTableSQL c, createEdgesTableSQL c],
          some ⟨"failed to set up", c.EdgesTable, e⟩)) ∧
    ((DestroyTables c execRes).1 = [dropEdgesTableSQL c] ∨
      (DestroyTables c execRes).1 =
        [dropEdgesTableSQL c, dropVerticesTableSQL c]) ∧
    (execRes (dropEdgesTableSQL c) = some e →
      DestroyTables c execRes =
        ([dropEdgesTableSQL c],
          some ⟨"failed to set up", c.EdgesTable, e⟩)) ∧
    (execRes (dropEdgesTableSQL c) = none →
      execRes (dropVerticesTableSQL c) = some e →
      DestroyTables c execRes =
        ([dropEdgesTableSQL c, dropVerticesTableSQL c],
          some ⟨"failed to set up", c.VerticesTable, e⟩)) := by
  unfold SetupTables DestroyTables
  cases h1 : execRes (createVerticesTableSQL c) <;>
    cases h2 : execRes (createEdgesTableSQL c) <;>
      cases h3 : execRes (dropEdgesTableSQL c) <;>
        cases h4 : execRes (dropVerticesTableSQL c) <;>
          simp_all

theorem setup_destroy_table_errors_witness :
    (fun _ : String => some DbErr.noRows) (createVerticesTableSQL DefaultConfig)
        = some DbErr.noRows ∧
    SetupTables DefaultConfig (fun _ => some DbErr.noRows) =
      ([createVerticesTableSQL DefaultConfig],
        some ⟨"failed to set up", "vertices", DbErr.noRows⟩) ∧
    DestroyTables DefaultConfig (fun _ => some DbErr.noRows) =
      ([dropEdgesTableSQL DefaultConfig],
        some ⟨"failed to set up", "edges", DbErr.noRows⟩) :=
  ⟨rfl,
    (setup_destroy_table_errors DefaultConfig (fun _ => some DbErr.noRows)
      DbErr.noRows).2.1 rfl,
    (setup_destroy_table_errors DefaultConfig (fun _ => some DbErr.noRows)
      DbErr.noRows).2.2.2.2.1 rfl⟩

/-- C3: a Vertex lookup on a key with no matching row fails with the
wrapped empty-query-result signal (sql.ErrNoRows reported as "failed to
query vertex"); a lookup whose stored value payload does not decode fails
with the value-unmarshal error, and one whose stored attributes payload
does not decode fails with the attributes-unmarshal error. -/
theorem vertex_error_cases {K T D : Type} [DecidableEq K]
    (decT : Bytes → Option T) (decAttrs : Bytes → Option Attrs)
    (db : DB K D) (k : K) :
    ((∀ r ∈ db.vertices, r.hash ≠ k) →
      Vertex (D := D) decT decAttrs db k = .error (.queryVertexFailed .noRows)) ∧
    (∀ row, db.vertices.find? (fun r => decide (r.hash = k)) = some row →
      decT row.value = none →
      Vertex (D := D) decT decAttrs db k = .error .unmarshalValueFailed) ∧
    (∀ row v, db.vertices.find? (fun r => decide (r.hash = k)) = some row →
      decT row.value = some v → decAttrs row.attributes = none →
      Vertex (D := D) decT decAttrs db k = .error .unmarshalAttributesFailed) := by
  refine ⟨fun h => ?_, fun row hf hv => ?_, fun row v hf hv ha => ?_⟩
  · have hf : db.vertices.find? (fun r => decide (r.hash = k)) = none :=
      List.find?_eq_none.mpr (fun r hr => by simp [h r hr])
    simp [Vertex, hf]
  · simp [Vertex, hf, hv]
  · simp [Vertex, hf, hv, ha]

/-- A database holding one vertex row whose value bytes do not decode and
one whose attribute bytes do not decode, for the error-path witnesses. -/
def badVertexDB : DB Nat Nat :=
  ⟨[⟨1, [5, 5], 0, [0]⟩, ⟨2, [7], 0, [9]⟩], []⟩

theorem vertex_error_cases_witness :
    (∀ r ∈ badVertexDB.vertices, r.hash ≠ 3) ∧
    Vertex decNat decAttrsW badVertexDB 3 = .error (.queryVertexFailed .noRows) ∧
    Vertex decNat decAttrsW badVertexDB 1 = .error .unmarshalValueFailed ∧
    Vertex decNat decAttrsW badVertexDB 2 = .error .unmarshalAttributesFailed := by
  have h3 : ∀ r ∈ badVertexDB.vertices, r.hash ≠ 3 := by
    intro r hr
    simp only [badVertexDB, List.mem_cons, List.mem_singleton,
      List.not_mem_nil] at hr
    rcases hr with hr | hr | hr
    · subst hr; decide
    · subst hr; decide
    · exact hr.elim
  refine ⟨h3, (vertex_error_cases decNat decAttrsW badVertexDB 3).1 h3,
    (vertex_error_cases decNat decAttrsW badVertexDB 1).2.1
      ⟨1, [5, 5], 0, [0]⟩ rfl rfl,
    (vertex_error_cases decNat decAttrsW badVertexDB 2).2.2
      ⟨2, [7], 0, [9]⟩ 7 rfl rfl rfl⟩

/-- C1: AddVertex followed by Vertex on the same key round-trips exactly.
Given that the table has no other row with this hash, the value is
JSON-encodable (encT succeeds) and the codec round-trips the encoded value
and attributes, AddVertex reports no error and Vertex returns precisely the
stored value and the properties (attributes and weight) that were passed
in. -/
theorem addVertex_vertex_roundtrip {K T D : Type} [DecidableEq K]
    (encT : T → Option Bytes) (decT : Bytes → Option T)
    (encAttrs : Attrs → Bytes) (decAttrs : Bytes → Option Attrs)
    (db : DB K D) (k : K) (v : T) (m : Attrs) (w : Int) (bv : Bytes)
    (hfresh : ∀ r ∈ db.vertices, r.hash ≠ k)
    (henc : encT v = some bv)
    (hdec : decT bv = some v)
    (hattrs : decAttrs (encAttrs m) = some m) :
    (AddVertex encT encAttrs db k v ⟨m, w⟩).2 = none ∧
    Vertex decT decAttrs (AddVertex encT encAttrs db k v ⟨m, w⟩).1 k
      = .ok (v, ⟨m, w⟩) := by
  have hnone : db.vertices.find? (fun r => decide (r.hash = k)) = none :=
    List.find?_eq_none.mpr (fun r hr => by simp [hfresh r hr])
  constructor
  · simp [AddVertex, henc]
  · simp only [AddVertex, henc]
    simp [Vertex, List.find?_append, hnone, List.find?, hdec, hattrs]

theorem addVertex_vertex_roundtrip_witness :
    encNat 7 = some [7] ∧
    decAttrsW (encAttrsW [("a", "x")]) = some [("a", "x")] ∧
    Vertex decNat decAttrsW
        (AddVertex encNat encAttrsW (emptyDB : DB Nat Nat) 1 7
          ⟨[("a", "x")], 2⟩).1 1
      = .ok (7, ⟨[("a", "x")], 2⟩) :=
  ⟨rfl, by decide,
    (addVertex_vertex_roundtrip encNat decNat encAttrsW decAttrsW emptyDB 1 7
      [("a", "x")] 2 [7] (fun r hr => absurd hr (List.not_mem_nil r))
      rfl rfl (by decide)).2⟩

/-- A per-row decode failure anywhere in the scanned rows makes the
ListEdges loop abort with the attributes-unmarshal error. -/
theorem listEdgesRows_error_of_bad_row {K D : Type}
    (decAttrs : Bytes → Option Attrs) (rows : List (EdgeRow K D))
    (h : ∃ r ∈ rows, decAttrs r.attributes = none) :
    listEdgesRows decAttrs rows = .error .unmarshalAttributesFailed := by
  induction rows with
  | nil => rcases h with ⟨r, hr, _⟩; exact absurd hr (List.not_mem_nil r)
  | cons row rest ih =>
    rcases h with ⟨r, hr, hbad⟩
    rcases List.mem_cons.mp hr with hr | hr
    · subst hr
      simp [listEdgesRows, hbad]
    · cases ha : decAttrs row.attributes with
      | none => simp [listEdgesRows, ha]
      | some attrs =>
        have := ih ⟨r, hr, hbad⟩
        simp [listEdgesRows, ha, this]

/-- When every row decodes, the ListEdges loop returns one decoded edge per
row. -/
theorem listEdgesRows_ok_of_all_good {K D : Type}
    (decAttrs : Bytes → Option Attrs) (rows : List (EdgeRow K D))
    (h : ∀ r ∈ rows, (decAttrs r.attributes).isSome) :
    ∃ edges, listEdgesRows decAttrs rows = .ok edges ∧
      edges.length = rows.length := by
  induction rows with
  | nil => exact ⟨[], rfl, rfl⟩
  | cons row rest ih =>
    have hrow := h row (List.mem_cons_self row rest)
    cases ha : decAttrs row.attributes with
    | none => rw [ha] at hrow; exact absurd hrow (by simp)
    | some attrs =>
      rcases ih (fun r hr => h r (List.mem_cons_of_mem row hr)) with
        ⟨edges, hok, hlen⟩
      exact ⟨⟨row.sourceHash, row.targetHash, ⟨attrs, row.weight, row.data⟩⟩
          :: edges,
        by simp [listEdgesRows, ha, hok], by simp [hlen]⟩

/-- C8: ListEdges decodes the attributes of every edge row; if any single
row's attributes fail to decode the whole listing aborts with the unmarshal
error (the Go loop returns nil, err, so no partial sequence is produced),
and when every row decodes it returns exactly one edge per row. -/
theorem listEdges_no_partial_results {K D : Type}
    (decAttrs : Bytes → Option Attrs) (db : DB K D) :
    ((∃ r ∈ db.edges, decAttrs r.attributes = none) →
      ListEdges decAttrs db = .error .unmarshalAttributesFailed) ∧
    ((∀ r ∈ db.edges, (decAttrs r.attributes).isSome) →
      ∃ edges, ListEdges decAttrs db = .ok edges ∧
        edges.length = db.edges.length) :=
  ⟨fun h => listEdgesRows_error_of_bad_row decAttrs db.edges h,
    fun h => listEdgesRows_ok_of_all_good decAttrs db.edges h⟩

/-- A database holding one decodable edge row followed by one whose
attribute bytes do not decode. -/
def badEdgeDB : DB Nat Nat :=
  ⟨[], [⟨1, 2, 0, [0], 0⟩, ⟨2, 1, 0, [9], 0⟩]⟩

theorem listEdges_no_partial_results_witness :
    (∃ r ∈ badEdgeDB.edges, decAttrsW r.attributes = none) ∧
    ListEdges decAttrsW badEdgeDB = .error .unmarshalAttributesFailed := by
  have hbad : ∃ r ∈ badEdgeDB.edges, decAttrsW r.attributes = none :=
    ⟨⟨2, 1, 0, [9], 0⟩, by decide, rfl⟩
  exact ⟨hbad, (listEdges_no_partial_results decAttrsW badEdgeDB).1 hbad⟩

/-- One mutating store call, for reasoning about call sequences. -/
inductive Op (K T D : Type) where
  | addVertex (hash : K) (value : T) (properties : VertexProperties)
  | removeVertex (hash : K)
  | addEdge (s t : K) (edge : EdgeT K D)
  | removeEdge (s t : K)
  | updateEdge (s t : K) (edge : EdgeT K D)

/-- Apply one call to the database, keeping the state it leaves behind
(a call that fails, such as AddVertex on an unencodable value, leaves the
database unchanged). -/
def applyOp {K T D : Type} [DecidableEq K] (encT : T → Option Bytes)
    (encAttrs : Attrs → Bytes) (db : DB K D) : Op K T D → DB K D
  | .addVertex k v p => (AddVertex encT encAttrs db k v p).1
  | .removeVertex k => (RemoveVertex db k).1
  | .addEdge s t e => (AddEdge encAttrs db s t e).1
  | .removeEdge s t => (RemoveEdge db s t).1
  | .updateEdge s t e => (UpdateEdge encAttrs db s t e).1

/-- Run a sequence of store calls left to right. -/
def run {K T D : Type} [DecidableEq K] (encT : T → Option Bytes)
    (encAttrs : Attrs → Bytes) (db : DB K D) (ops : List (Op K T D)) :
    DB K D :=
  ops.foldl (applyOp encT encAttrs) db

/-- Updating a row rewrites only weight/attributes/data, so whether the row
matches a (source, target) WHERE clause is unchanged. -/
theorem edgeMatches_after_update {K D : Type} [DecidableEq K] (s t : K)
    (w : Int) (ab : Bytes) (d : D) (r : EdgeRow K D) :
    edgeMatches s t
      (if edgeMatches s t r then
        ⟨r.sourceHash, r.targetHash, w, ab, d⟩
      else r) = edgeMatches s t r := by
  cases h : edgeMatches s t r with
  | true => simp only [if_pos h, edgeMatches] at h ⊢; exact h
  | false => simp [h]

/-- Appending a matching row to the table guarantees the point query finds
a matching row. -/
theorem find?_append_last {α : Type} (p : α → Bool) (l : List α) (a : α)
    (ha : p a = true) :
    ∃ b, (l ++ [a]).find? p = some b ∧ p b = true := by
  rw [List.find?_append]
  cases hf : l.find? p with
  | none => exact ⟨a, by simp [List.find?_cons_of_pos _ ha], ha⟩
  | some b => exact ⟨b, by simp, List.find?_some hf⟩

/-- An UPDATE whose WHERE clause matches no row maps every row to itself. -/
theorem map_update_of_no_match {α : Type} (p : α → Bool) (g : α → α)
    (l : List α) (h : ∀ x ∈ l, p x = false) :
    l.map (fun x => if p x then g x else x) = l := by
  induction l with
  | nil => rfl
  | cons a l ih =>
    rw [List.map_cons, if_neg (by rw [h a (List.mem_cons_self a l)]; simp),
      ih (fun x hx => h x (List.mem_cons_of_mem a hx))]

/-- C4: after AddEdge(s, t, e1), UpdateEdge(s, t, e2) succeeds and makes
Edge(s, t) return exactly e2's weight, attributes and data — a full
overwrite, no field of e1 survives; and on a database where no row matches
the pair, UpdateEdge returns no error and changes no row. -/
theorem updateEdge_overwrites {K D : Type} [DecidableEq K] [Inhabited D]
    (encAttrs : Attrs → Bytes) (decAttrs : Bytes → Option Attrs)
    (db : DB K D) (s t : K) (e1 e2 : EdgeT K D)
    (hattrs : decAttrs (encAttrs e2.Properties.Attributes)
      = some e2.Properties.Attributes) :
    ((UpdateEdge encAttrs (AddEdge encAttrs db s t e1).1 s t e2).2 = none ∧
      Edge decAttrs (UpdateEdge encAttrs (AddEdge encAttrs db s t e1).1 s t e2).1
          s t = (⟨s, t, e2.Properties⟩, none)) ∧
    (∀ dbA : DB K D, (∀ r ∈ dbA.edges, edgeMatches s t r = false) →
      UpdateEdge encAttrs dbA s t e2 = (dbA, none)) := by
  constructor
  · constructor
    · rfl
    · have hnew : edgeMatches (D := D) s t
          ⟨s, t, e1.Properties.Weight, encAttrs e1.Properties.Attributes,
            e1.Properties.Data⟩ = true := by
        simp [edgeMatches]
      rcases find?_append_last (edgeMatches s t) db.edges _ hnew with
        ⟨r0, hf, hp⟩
      have hcomp : (fun r => edgeMatches s t r) ∘ (fun r : EdgeRow K D =>
          if edgeMatches s t r then
            (⟨r.sourceHash, r.targetHash, e2.Properties.Weight,
              encAttrs e2.Properties.Attributes, e2.Properties.Data⟩ :
                EdgeRow K D)
          else r) = fun r => edgeMatches s t r := by
        funext r
        exact edgeMatches_after_update s t _ _ _ r
      simp only [UpdateEdge, AddEdge, Edge, List.find?_map, hcomp, hf,
        Option.map_some']
      rw [if_pos hp]
      simp [hattrs]
  · intro dbA hA
    simp only [UpdateEdge]
    rw [map_update_of_no_match _ _ _ hA]

/-- A concrete edge, weight 5, attributes map with one entry, data payload
"happy" encoded as 99, used to exercise the update path. -/
def updEdgeW : EdgeT Nat Nat := ⟨1, 1, ⟨[("abc", "xyz")], 5, 99⟩⟩

theorem updateEdge_overwrites_witness :
    decAttrsW (encAttrsW updEdgeW.Properties.Attributes)
        = some updEdgeW.Properties.Attributes ∧
    Edge decAttrsW
        (UpdateEdge encAttrsW
          (AddEdge encAttrsW (emptyDB : DB Nat Nat) 1 1 ⟨1, 1, ⟨[], 0, 0⟩⟩).1
          1 1 updEdgeW).1 1 1
      = (⟨1, 1, updEdgeW.Properties⟩, none) ∧
    UpdateEdge encAttrsW (emptyDB : DB Nat Nat) 1 1 updEdgeW
      = (emptyDB, none) := by
  have h := updateEdge_overwrites encAttrsW decAttrsW (emptyDB : DB Nat Nat)
    1 1 ⟨1, 1, ⟨[], 0, 0⟩⟩ updEdgeW (by decide)
  exact ⟨by decide, h.1.2,
    h.2 emptyDB (fun r hr => absurd hr (List.not_mem_nil r))⟩

/-- Calls issued in the EdgeCount scenario up to the point where two
vertices and no edges exist. -/
def edgeScenario1 : List (Op Nat Nat Nat) :=
  [.addVertex 1 1 ⟨[], 0⟩, .addVertex 2 2 ⟨[], 0⟩]

/-- The scenario continued with the four edges (1,2), (2,1), (1,1), (2,2). -/
def edgeScenario2 : List (Op Nat Nat Nat) :=
  edgeScenario1 ++
    [.addEdge 1 2 ⟨1, 2, ⟨[], 0, 0⟩⟩, .addEdge 2 1 ⟨2, 1, ⟨[], 0, 0⟩⟩,
      .addEdge 1 1 ⟨1, 1, ⟨[], 0, 0⟩⟩, .addEdge 2 2 ⟨2, 2, ⟨[], 0, 0⟩⟩]

/-- The scenario continued with the removal of edge (2,2). -/
def edgeScenario3 : List (Op Nat Nat Nat) :=
  edgeScenario2 ++ [.removeEdge 2 2]

/-- C5: EdgeCount returns the number of rows of the edges table with no
error (counting the always-populated source_hash column, so no row is
missed); concretely, the scenario of two vertices yields count 0, adding
the four edges yields 4, and removing edge (2,2) yields 3. -/
theorem edgeCount_counts_rows :
    (∀ (K D : Type) (db : DB K D), EdgeCount db = (db.edges.length, none)) ∧
    (EdgeCount (run encNat encAttrsW emptyDB edgeScenario1)).1 = 0 ∧
    (EdgeCount (run encNat encAttrsW emptyDB edgeScenario2)).1 = 4 ∧
    (EdgeCount (run encNat encAttrsW emptyDB edgeScenario3)).1 = 3 :=
  ⟨fun _ _ _ => rfl, by decide, by decide, by decide⟩

/-- Whether the edges table holds at least one row for the exact
(source, target) pair. -/
def edgeRowExists {K D : Type} [DecidableEq K] (db : DB K D) (s t : K) :
    Bool :=
  db.edges.any (edgeMatches s t)

/-- Effect of one store call on the existence of the (s, t) row, read off
the spec's wording: an AddEdge of the pair establishes it, a RemoveEdge of
the pair clears it, and every other call leaves it alone. -/
def sinceStep {K T D : Type} [DecidableEq K] (s t : K) (b : Bool) :
    Op K T D → Bool
  | .addEdge s2 t2 _ => b || (decide (s2 = s) && decide (t2 = t))
  | .removeEdge s2 t2 => if decide (s2 = s) && decide (t2 = t) then false else b
  | _ => b

/-- Scan of the call history from the most recent call backwards: true as
soon as an AddEdge(s, t, _) is seen, false as soon as a RemoveEdge(s, t)
is seen. -/
def addedSinceLastRemoveAux {K T D : Type} [DecidableEq K] (s t : K) :
    List (Op K T D) → Bool
  | [] => false
  | .addEdge s2 t2 _ :: rest =>
    (decide (s2 = s) && decide (t2 = t)) || addedSinceLastRemoveAux s t rest
  | .removeEdge s2 t2 :: rest =>
    if decide (s2 = s) && decide (t2 = t) then false
    else addedSinceLastRemoveAux s t rest
  | _ :: rest => addedSinceLastRemoveAux s t rest

/-- The spec-side condition of the edge-existence law, in the spec's own
words: some AddEdge(s, t, …) has been applied since the last
RemoveEdge(s, t) of the call history. -/
def addedSinceLastRemove {K T D : Type} [DecidableEq K] (s t : K)
    (ops : List (Op K T D)) : Bool :=
  addedSinceLastRemoveAux s t ops.reverse

/-- A DELETE of the (s2, t2) rows clears the (s, t) row exactly when the
pairs coincide. -/
theorem any_filter_not_matches {K D : Type} [DecidableEq K] (s t s2 t2 : K)
    (l : List (EdgeRow K D)) :
    (l.filter (fun r => !edgeMatches s2 t2 r)).any (edgeMatches s t)
      = if decide (s2 = s) && decide (t2 = t) then false
        else l.any (edgeMatches s t) := by
  by_cases hc : (decide (s2 = s) && decide (t2 = t)) = true
  · rw [if_pos hc]
    have hst : s2 = s ∧ t2 = t := by simpa using hc
    rw [List.any_eq_false]
    intro r hr
    rcases List.mem_filter.mp hr with ⟨-, hq⟩
    rw [hst.1, hst.2] at hq
    simp only [Bool.not_eq_true'] at hq
    simp [hq]
  · rw [if_neg hc]
    induction l with
    | nil => rfl
    | cons r l ih =>
      rw [List.filter_cons, List.any_cons]
      by_cases hm : edgeMatches s2 t2 r = true
      · have hout : edgeMatches s t r = false := by
          rcases (by simpa [edgeMatches] using hm :
            r.sourceHash = s2 ∧ r.targetHash = t2) with ⟨h1, h2⟩
          by_contra hin
          rcases (by simpa [edgeMatches] using
            (Bool.not_eq_false _).mp hin : r.sourceHash = s ∧ r.targetHash = t)
            with ⟨h3, h4⟩
          exact hc (by simp [h1 ▸ h3, h2 ▸ h4])
        rw [if_neg (by simp [hm]), ih, hout]
        simp
      · rw [if_pos (by simp [Bool.not_eq_true _ ▸ hm] ), List.any_cons, ih]

/-- An UPDATE rewrites weight/attributes/data only, so it never changes
which pairs have a row. -/
theorem any_map_update {K D : Type} [DecidableEq K] (s t s2 t2 : K)
    (w : Int) (ab : Bytes) (d : D) (l : List (EdgeRow K D)) :
    (l.map (fun r =>
        if edgeMatches s2 t2 r then
          ⟨r.sourceHash, r.targetHash, w, ab, d⟩
        else r)).any (edgeMatches s t)
      = l.any (edgeMatches s t) := by
  rw [List.any_map]
  congr 1
  funext r
  by_cases hm : edgeMatches s2 t2 r = true
  · show edgeMatches s t (if edgeMatches s2 t2 r then _ else r) = _
    rw [if_pos hm]
    rfl
  · show edgeMatches s t (if edgeMatches s2 t2 r then _ else r) = _
    rw [if_neg hm]

/-- One call changes the existence of the (s, t) row exactly as the
spec-side step function says. -/
theorem edgeRowExists_applyOp {K T D : Type} [DecidableEq K]
    (encT : T → Option Bytes) (encAttrs : Attrs → Bytes) (s t : K)
    (db : DB K D) (op : Op K T D) :
    edgeRowExists (applyOp encT encAttrs db op) s t
      = sinceStep s t (edgeRowExists db s t) op := by
  cases op with
  | addVertex k v p =>
    cases h : encT v <;> simp [applyOp, AddVertex, h, edgeRowExists, sinceStep]
  | removeVertex k =>
    simp [applyOp, RemoveVertex, edgeRowExists, sinceStep]
  | addEdge s2 t2 e =>
    simp [applyOp, AddEdge, edgeRowExists, sinceStep, List.any_append,
      edgeMatches]
  | removeEdge s2 t2 =>
    simpa [applyOp, RemoveEdge, edgeRowExists, sinceStep] using
      any_filter_not_matches s t s2 t2 db.edges
  | updateEdge s2 t2 e =>
    simpa [applyOp, UpdateEdge, edgeRowExists, sinceStep] using
      any_map_update s t s2 t2 e.Properties.Weight
        (encAttrs e.Properties.Attributes) e.Properties.Data db.edges

/-- Running a call history folds the spec-side step function over it. -/
theorem edgeRowExists_run {K T D : Type} [DecidableEq K]
    (encT : T → Option Bytes) (encAttrs : Attrs → Bytes) (s t : K)
    (db : DB K D) (ops : List (Op K T D)) :
    edgeRowExists (run encT encAttrs db ops) s t
      = ops.foldl (sinceStep s t) (edgeRowExists db s t) := by
  induction ops generalizing db with
  | nil => rfl
  | cons op rest ih =>
    show edgeRowExists
        (run encT encAttrs (applyOp encT encAttrs db op) rest) s t = _
    rw [ih (applyOp encT encAttrs db op), edgeRowExists_applyOp,
      List.foldl_cons]

/-- The left fold of the step function is the backwards scan of the
history. -/
theorem foldl_sinceStep_eq_aux {K T D : Type} [DecidableEq K] (s t : K)
    (ops : List (Op K T D)) :
    ops.foldl (sinceStep s t) false = addedSinceLastRemoveAux s t ops.reverse := by
  induction ops using List.reverseRecOn with
  | nil => rfl
  | append_singleton ops op ih =>
    rw [List.foldl_append, List.reverse_append]
    cases op with
    | addVertex k v p => simpa [sinceStep, addedSinceLastRemoveAux] using ih
    | removeVertex k => simpa [sinceStep, addedSinceLastRemoveAux] using ih
    | addEdge s2 t2 e =>
      simp [sinceStep, addedSinceLastRemoveAux, ih, Bool.or_comm]
    | removeEdge s2 t2 =>
      simp [sinceStep, addedSinceLastRemoveAux, ih]
    | updateEdge s2 t2 e =>
      simpa [sinceStep, addedSinceLastRemoveAux] using ih

/-- Edge reports the graph.ErrEdgeNotFound sentinel exactly when no row of
the edges table matches the pair. -/
theorem edge_notFound_iff_no_row {K D : Type} [DecidableEq K] [Inhabited D]
    (decAttrs : Bytes → Option Attrs) (db : DB K D) (s t : K) :
    (Edge decAttrs db s t).2 = some .edgeNotFound
      ↔ edgeRowExists db s t = false := by
  cases hf : db.edges.find? (edgeMatches s t) with
  | none =>
    have hnone : db.edges.any (edgeMatches s t) = false :=
      List.any_eq_false.mpr (List.find?_eq_none.mp hf)
    simp [Edge, edgeRowExists, hf, hnone]
  | some row =>
    have hex : db.edges.any (edgeMatches s t) = true :=
      List.any_eq_true.mpr
        ⟨row, List.mem_of_find?_eq_some hf, List.find?_some hf⟩
    cases ha : decAttrs row.attributes <;>
      simp [Edge, edgeRowExists, hf, ha, hex]

/-- C2: starting from an empty store, Edge(s, t) returns the distinguished
graph.ErrEdgeNotFound sentinel if and only if no AddEdge(s, t, …) has been
applied since the last RemoveEdge(s, t) of the call history (other calls,
including UpdateEdge, never create or delete the row). -/
theorem edge_notFound_iff_no_add_since_remove {K T D : Type} [DecidableEq K]
    [Inhabited D] (encT : T → Option Bytes) (encAttrs : Attrs → Bytes)
    (decAttrs : Bytes → Option Attrs) (ops : List (Op K T D)) (s t : K) :
    (Edge decAttrs (run encT encAttrs emptyDB ops) s t).2
        = some .edgeNotFound
      ↔ addedSinceLastRemove s t ops = false := by
  rw [edge_notFound_iff_no_row, edgeRowExists_run, addedSinceLastRemove,
    ← foldl_sinceStep_eq_aux]
  rfl

/-- A call history of AddVertex/RemoveVertex calls on distinct keys, the
setting of the count-consistency law: every added key is fresh (so no
duplicate keys, and every add with an encodable value succeeds), and every
removed key is currently present (so removes on distinct present keys).
Histories containing other calls are outside the law. -/
def legalVOps {K T D : Type} [DecidableEq K] (encT : T → Option Bytes)
    (added present : List K) : List (Op K T D) → Bool
  | [] => true
  | .addVertex k v _ :: rest =>
    !decide (k ∈ added) && (encT v).isSome &&
      legalVOps encT (k :: added) (k :: present) rest
  | .removeVertex k :: rest =>
    decide (k ∈ present) &&
      legalVOps encT added (present.filter (fun x => !decide (x = k))) rest
  | _ :: _ => false

/-- The number of AddVertex calls in a history. -/
def countAddV {K T D : Type} : List (Op K T D) → Nat
  | [] => 0
  | .addVertex _ _ _ :: rest => countAddV rest + 1
  | _ :: rest => countAddV rest

/-- The number of RemoveVertex calls in a history. -/
def countRemoveV {K T D : Type} : List (Op K T D) → Nat
  | [] => 0
  | .removeVertex _ :: rest => countRemoveV rest + 1
  | _ :: rest => countRemoveV rest

/-- Hashes of the rows surviving a DELETE by key are the surviving
hashes. -/
theorem map_hash_filter {K : Type} [DecidableEq K] (l : List (VertexRow K))
    (k : K) :
    (l.filter (fun r => !decide (r.hash = k))).map (·.hash)
      = (l.map (·.hash)).filter (fun x => !decide (x = k)) := by
  induction l with
  | nil => rfl
  | cons r l ih =>
    rw [List.filter_cons, List.map_cons, List.filter_cons]
    by_cases hr : r.hash = k
    · rw [if_neg (by simp [hr]), if_neg (by simp [hr]), ih]
    · rw [if_pos (by simp [hr]), if_pos (by simp [hr]), List.map_cons, ih]

/-- Deleting one present key from a duplicate-free key list shortens it by
exactly one. -/
theorem length_filter_out_mem {K : Type} [DecidableEq K] (l : List K) (k : K)
    (hnd : l.Nodup) (hk : k ∈ l) :
    (l.filter (fun x => !decide (x = k))).length + 1 = l.length := by
  induction l with
  | nil => exact absurd hk (List.not_mem_nil k)
  | cons a l ih =>
    rcases List.nodup_cons.mp hnd with ⟨hal, hndl⟩
    rw [List.filter_cons]
    rcases List.mem_cons.mp hk with h | h
    · subst h
      rw [if_neg (by simp), filter_not_eq_self (fun x hx => by
        simp only [decide_eq_false_iff_not]
        exact fun e => hal (e ▸ hx))]
      rfl
    · have hne : a ≠ k := fun e => hal (e ▸ h)
      rw [if_pos (by simp [hne])]
      simp only [List.length_cons, ← ih hndl h]

/-- Invariant of the count-consistency law: along a legal history, the
vertices table always holds exactly one row per present key, so its length
moves in lockstep with the number of adds and removes. -/
theorem run_length_of_legal {K T D : Type} [DecidableEq K]
    (encT : T → Option Bytes) (encAttrs : Attrs → Bytes)
    (ops : List (Op K T D)) :
    ∀ (added present : List K) (db : DB K D),
      present.Nodup →
      (∀ x ∈ present, x ∈ added) →
      (db.vertices.map (·.hash)).Perm present →
      legalVOps encT added present ops = true →
      (run encT encAttrs db ops).vertices.length + countRemoveV ops
        = present.length + countAddV ops := by
  induction ops with
  | nil =>
    intro added present db _ _ hperm _
    simpa [run, countAddV, countRemoveV] using hperm.length_eq
  | cons op rest ih =>
    intro added present db hnd hsub hperm hlegal
    cases op with
    | addVertex k v p =>
      simp only [legalVOps, Bool.and_eq_true, Bool.not_eq_true',
        decide_eq_false_iff_not] at hlegal
      obtain ⟨⟨hkadded, hvenc⟩, hrest⟩ := hlegal
      obtain ⟨bv, hbv⟩ := Option.isSome_iff_exists.mp hvenc
      have happly : applyOp encT encAttrs db (.addVertex k v p)
          = ⟨db.vertices ++ [⟨k, bv, p.Weight, encAttrs p.Attributes⟩],
              db.edges⟩ := by
        simp [applyOp, AddVertex, hbv]
      have hperm2 : (((db.vertices ++
            [⟨k, bv, p.Weight, encAttrs p.Attributes⟩] :
              List (VertexRow K))).map (·.hash)).Perm (k :: present) := by
        rw [List.map_append]
        exact (List.perm_append_singleton k _).trans (hperm.cons k)
      have hnd2 : (k :: present).Nodup :=
        List.nodup_cons.mpr ⟨fun hkp => hkadded (hsub k hkp), hnd⟩
      have hsub2 : ∀ x ∈ (k :: present), x ∈ (k :: added) := by
        intro x hx
        rcases List.mem_cons.mp hx with h | h
        · exact h ▸ List.mem_cons_self x added
        · exact List.mem_cons_of_mem k (hsub x h)
      have hmain := ih (k :: added) (k :: present)
        (⟨db.vertices ++ [⟨k, bv, p.Weight, encAttrs p.Attributes⟩],
          db.edges⟩ : DB K D) hnd2 hsub2 hperm2 hrest
      show (run encT encAttrs (applyOp encT encAttrs db (.addVertex k v p))
          rest).vertices.length + countRemoveV (.addVertex k v p :: rest)
        = present.length + countAddV (.addVertex k v p :: rest)
      rw [happly]
      simp only [countAddV, countRemoveV] at hmain ⊢
      simp only [List.length_cons] at hmain
      omega
    | removeVertex k =>
      simp only [legalVOps, Bool.and_eq_true, decide_eq_true_eq] at hlegal
      obtain ⟨hkpres, hrest⟩ := hlegal
      have hperm2 : ((db.vertices.filter
            (fun r => !decide (r.hash = k))).map (·.hash)).Perm
          (present.filter (fun x => !decide (x = k))) := by
        rw [map_hash_filter]
        exact hperm.filter _
      have hnd2 : (present.filter (fun x => !decide (x = k))).Nodup :=
        hnd.filter _
      have hsub2 : ∀ x ∈ present.filter (fun x => !decide (x = k)),
          x ∈ added :=
        fun x hx => hsub x (List.mem_of_mem_filter hx)
      have hlen := length_filter_out_mem present k hnd hkpres
      have hmain := ih added (present.filter (fun x => !decide (x = k)))
        (⟨db.vertices.filter (fun r => !decide (r.hash = k)), db.edges⟩ :
          DB K D) hnd2 hsub2 hperm2 hrest
      show (run encT encAttrs (applyOp encT encAttrs db (.removeVertex k))
          rest).vertices.length + countRemoveV (.removeVertex k :: rest)
        = present.length + countAddV (.removeVertex k :: rest)
      simp only [applyOp, RemoveVertex] at hmain ⊢
      simp only [countAddV, countRemoveV] at hmain ⊢
      omega
    | addEdge s2 t2 e => simp [legalVOps] at hlegal
    | removeEdge s2 t2 => simp [legalVOps] at hlegal
    | updateEdge s2 t2 e => simp [legalVOps] at hlegal

/-- The vertices 1, 2, 3, 4 added to an empty store. -/
def vertexScenario1 : List (Op Nat Nat Nat) :=
  [.addVertex 1 1 ⟨[], 0⟩, .addVertex 2 2 ⟨[], 0⟩, .addVertex 3 3 ⟨[], 0⟩,
    .addVertex 4 4 ⟨[], 0⟩]

/-- The same scenario continued with the removal of vertex 3. -/
def vertexScenario2 : List (Op Nat Nat Nat) :=
  vertexScenario1 ++ [.removeVertex 3]

/-- C6: on every history of successful AddVertex/RemoveVertex calls on
distinct keys run from an empty store, VertexCount equals the number of
AddVertex calls minus the number of RemoveVertex calls; concretely, adding
vertices 1, 2, 3, 4 gives VertexCount 4, then removing vertex 3 gives
VertexCount 3 and makes Vertex(3) report the not-found (empty query
result) signal. -/
theorem vertexCount_adds_minus_removes {K T D : Type} [DecidableEq K]
    (encT : T → Option Bytes) (encAttrs : Attrs → Bytes) :
    (∀ ops : List (Op K T D), legalVOps encT ([] : List K) [] ops = true →
      (VertexCount (run encT encAttrs emptyDB ops)).1 + countRemoveV ops
        = countAddV ops) ∧
    (VertexCount (run encNat encAttrsW (emptyDB : DB Nat Nat)
      vertexScenario1)).1 = 4 ∧
    (VertexCount (run encNat encAttrsW (emptyDB : DB Nat Nat)
      vertexScenario2)).1 = 3 ∧
    Vertex decNat decAttrsW
        (run encNat encAttrsW (emptyDB : DB Nat Nat) vertexScenario2) 3
      = .error (.queryVertexFailed .noRows) := by
  refine ⟨fun ops hlegal => ?_, by decide, by decide, rfl⟩
  simpa [VertexCount] using
    run_length_of_legal encT encAttrs ops [] [] emptyDB List.nodup_nil
      (fun x hx => absurd hx (List.not_mem_nil x)) (List.Perm.refl []) hlegal

theorem vertexCount_adds_minus_removes_witness :
    legalVOps encNat ([] : List Nat) [] vertexScenario2 = true ∧
    (VertexCount (run encNat encAttrsW (emptyDB : DB Nat Nat)
        vertexScenario2)).1 + countRemoveV vertexScenario2
      = countAddV vertexScenario2 :=
  ⟨by decide,
    (vertexCount_adds_minus_removes (D := Nat) encNat encAttrsW).1
      vertexScenario2 (by decide)⟩

end GraphSQL
